import Mathlib

/-!
Verification of the SQLiteKV value lifecycle and merge-semantics engine
(`src/database.ts`, `src/kvstore.ts`).

The embedding models:
* `Value` — the repository's `ValueType` (string | number | boolean | object |
  array).  Numbers are modelled as integers (the JSON-safe fragment of JS
  numbers); objects are ordered association lists, mirroring JS property
  insertion order.
* the JSON codec — the platform's `JSON.stringify` / `JSON.parse` as used by
  the store: `serV` renders a value to its JSON text (no whitespace, exactly
  like `JSON.stringify` with no indent argument), `parseVal` is a recursive
  descent parser over the character list.  Stored blobs are always
  `JSON.stringify` outputs, which contain no inter-token whitespace, so the
  parser does not model whitespace skipping.
* the merge-on-write rule of `SQLiteDatabase.setWithExpiry`, including the
  JS `typeof x === "object"` test (true for both objects and arrays) and JS
  object-spread semantics (`\x7b...a, ...b\x7d`: later keys win, a repeated
  key keeps its first position, array operands contribute index-keyed
  properties).
* the row store — a list of rows in rowid (insertion) order; `INSERT OR
  REPLACE` deletes the conflicting row and appends the new one, `DELETE`
  filters, `SELECT ... WHERE key = ?` takes the first match.
* `get` / `set` / `setex` / `delete` / `ttl` / `keys` / `mget` state passing,
  with `Date.now()` supplied explicitly as a `now : Int` argument.  The
  `this.db === null` checks are modelled by wrappers over `Option Store`.
-/

/-- The repository's `ValueType`: `string | number | boolean | object | any[]`.
Objects are ordered key/value lists (JS property insertion order). -/
inductive Value where
  | str (s : String)
  | num (n : Int)
  | bool (b : Bool)
  | obj (fields : List (String × Value))
  | arr (elems : List Value)

/-- JS `typeof v === "string"`. -/
def isStringV : Value → Bool
  | .str _ => true
  | _ => false

/-- JS `typeof v === "object"` for a `ValueType`: true exactly for objects and
arrays (`typeof` does not distinguish them). -/
def typeofObject : Value → Bool
  | .obj _ => true
  | .arr _ => true
  | _ => false

/-- Decimal digit character for `d < 10`. -/
def digitChar (d : Nat) : Char := Char.ofNat (48 + d)

/-- Fuelled most-significant-first decimal rendering (fuel `n + 1` always
suffices; the fuel only makes the recursion structural). -/
def natCharsAux : Nat → Nat → List Char → List Char
  | 0, _, acc => acc
  | fuel + 1, n, acc =>
      if n < 10 then digitChar (n % 10) :: acc
      else natCharsAux fuel (n / 10) (digitChar (n % 10) :: acc)

/-- Decimal digit characters of `n`, most significant first. -/
def natChars (n : Nat) : List Char := natCharsAux (n + 1) n []

/-- JS number-to-text for integers: optional minus sign, then digits. -/
def intChars (i : Int) : List Char :=
  if i < 0 then '-' :: natChars i.natAbs else natChars i.natAbs

/-- The opening curly brace character. -/
def curlyOpen : Char := Char.ofNat 123

/-- The closing curly brace character. -/
def curlyClose : Char := Char.ofNat 125

/-- Lower-case hexadecimal digit character for `d < 16`. -/
def hexChar (d : Nat) : Char :=
  if d < 10 then Char.ofNat (48 + d) else Char.ofNat (87 + d)

/-- JSON escaping of one character, as `JSON.stringify` performs it: `"`,
backslash and the named control characters get two-character escapes, other
control characters below U+0020 get a `\u00XX` escape, everything else is
emitted verbatim. -/
def escChar (c : Char) : List Char :=
  if c = '"' then ['\\', '"']
  else if c = '\\' then ['\\', '\\']
  else if c = '\n' then ['\\', 'n']
  else if c = '\r' then ['\\', 'r']
  else if c = '\t' then ['\\', 't']
  else if c = Char.ofNat 8 then ['\\', 'b']
  else if c = Char.ofNat 12 then ['\\', 'f']
  else if c.toNat < 32 then
    ['\\', 'u', '0', '0', hexChar (c.toNat / 16), hexChar (c.toNat % 16)]
  else [c]

/-- JSON escaping of a character list. -/
def escBody : List Char → List Char
  | [] => []
  | c :: cs => escChar c ++ escBody cs

/-- A JSON string literal: quote, escaped body, quote. -/
def serStrLit (s : String) : List Char := '"' :: (escBody s.data ++ ['"'])

mutual
/-- The character list `JSON.stringify` produces for a value (no whitespace,
object members in the list's order, arrays in element order). -/
def serV : Value → List Char
  | .str s => serStrLit s
  | .num i => intChars i
  | .bool true => ['t', 'r', 'u', 'e']
  | .bool false => ['f', 'a', 'l', 's', 'e']
  | .arr [] => ['[', ']']
  | .arr (e :: es) => '[' :: (serV e ++ (serMore es ++ [']']))
  | .obj [] => [curlyOpen, curlyClose]
  | .obj (f :: fs) => curlyOpen :: (serField f ++ (serMoreF fs ++ [curlyClose]))
/-- Comma-prefixed continuation of an array body. -/
def serMore : List Value → List Char
  | [] => []
  | e :: es => ',' :: (serV e ++ serMore es)
/-- One object member: `"key":value`. -/
def serField : String × Value → List Char
  | (k, v) => serStrLit k ++ (':' :: serV v)
/-- Comma-prefixed continuation of an object body. -/
def serMoreF : List (String × Value) → List Char
  | [] => []
  | f :: fs => ',' :: (serField f ++ serMoreF fs)
end

/-- The stored blob for a value: `JSON.stringify` as a `String`. -/
def serStr (v : Value) : String := String.mk (serV v)

/-- Test for a decimal digit character. -/
def jsDigit (c : Char) : Bool := 48 ≤ c.toNat && c.toNat ≤ 57

/-- Value of one hexadecimal digit character. -/
def hexVal (c : Char) : Option Nat :=
  if 48 ≤ c.toNat && c.toNat ≤ 57 then some (c.toNat - 48)
  else if 97 ≤ c.toNat && c.toNat ≤ 102 then some (c.toNat - 87)
  else if 65 ≤ c.toNat && c.toNat ≤ 70 then some (c.toNat - 55)
  else none

/-- Value of a four-hex-digit escape payload. -/
def hex4 (a b c d : Char) : Option Nat :=
  match hexVal a, hexVal b, hexVal c, hexVal d with
  | some va, some vb, some vc, some vd =>
      some (((va * 16 + vb) * 16 + vc) * 16 + vd)
  | _, _, _, _ => none

/-- Decoding of a single-character JSON escape (after the backslash). -/
def escDecode : Char → Option Char
  | '"' => some '"'
  | '\\' => some '\\'
  | '/' => some '/'
  | 'b' => some (Char.ofNat 8)
  | 'f' => some (Char.ofNat 12)
  | 'n' => some '\n'
  | 'r' => some '\r'
  | 't' => some '\t'
  | _ => none

/-- Parse the body of a JSON string after the opening quote, returning the
decoded characters and the input after the closing quote. -/
def parseStrChars : List Char → Option (List Char × List Char)
  | [] => none
  | '"' :: r => some ([], r)
  | '\\' :: 'u' :: a :: b :: c :: d :: r =>
      match hex4 a b c d with
      | some n =>
          match parseStrChars r with
          | some (s, r') => some (Char.ofNat n :: s, r')
          | none => none
      | none => none
  | '\\' :: e :: r =>
      match escDecode e with
      | some ch =>
          match parseStrChars r with
          | some (s, r') => some (ch :: s, r')
          | none => none
      | none => none
  | c :: r =>
      match parseStrChars r with
      | some (s, r') => some (c :: s, r')
      | none => none

/-- Longest digit prefix of the input, with the remainder. -/
def takeDigitsL : List Char → List Char × List Char
  | [] => ([], [])
  | c :: cs =>
      if jsDigit c then
        let p := takeDigitsL cs
        (c :: p.1, p.2)
      else ([], c :: cs)

/-- Numeric value of a digit run. -/
def digitsVal (ds : List Char) : Nat :=
  ds.foldl (fun a c => a * 10 + (c.toNat - 48)) 0

/-- Parse an integer token (the only number shape `serV` emits). -/
def parseIntTok (cs : List Char) : Option (Int × List Char) :=
  match cs with
  | c :: cs' =>
      if c = '-' then
        match takeDigitsL cs' with
        | ([], _) => none
        | (ds, r) => some (-(digitsVal ds : Int), r)
      else
        match takeDigitsL cs with
        | ([], _) => none
        | (ds, r) => some ((digitsVal ds : Int), r)
  | [] => none

/-- A remainder that cannot extend a number token: empty or headed by a
non-digit (every separator `serV` emits after a nested value qualifies). -/
def noDigitHead : List Char → Prop
  | [] => True
  | c :: _ => jsDigit c = false

/-- JS property assignment into an ordered property list: a repeated key is
updated in place (keeping its first position); a new key is appended. -/
def insertProp : List (String × Value) → String → Value → List (String × Value)
  | [], k, v => [(k, v)]
  | (k', v') :: rest, k, v =>
      if k' = k then (k', v) :: rest else (k', v') :: insertProp rest k v

/-- Building a JS object by assigning a sequence of properties in order
(the semantics of both an object literal with spreads and of `JSON.parse`
object construction, where duplicate keys resolve to the last value). -/
def objFromProps (ps : List (String × Value)) : List (String × Value) :=
  ps.foldl (fun a p => insertProp a p.1 p.2) []

mutual
/-- Recursive descent for one JSON value, with fuel (any fuel above the
rendered length suffices; `JSON.parse` itself recurses on the structure). -/
def parseVal : Nat → List Char → Option (Value × List Char)
  | 0, _ => none
  | fuel + 1, cs =>
      match cs with
      | 't' :: 'r' :: 'u' :: 'e' :: r => some (.bool true, r)
      | 'f' :: 'a' :: 'l' :: 's' :: 'e' :: r => some (.bool false, r)
      | '"' :: r =>
          match parseStrChars r with
          | some (s, r') => some (.str (String.mk s), r')
          | none => none
      | '[' :: ']' :: r => some (.arr [], r)
      | '[' :: r =>
          match parseItems fuel r with
          | some (es, r') => some (.arr es, r')
          | none => none
      | c :: r =>
          if c = curlyOpen then
            match r with
            | [] => none
            | c' :: r' =>
                if c' = curlyClose then some (.obj [], r')
                else
                  match parsePairs fuel (c' :: r') with
                  | some (ps, r'') => some (.obj (objFromProps ps), r'')
                  | none => none
          else if c = '-' || jsDigit c then
            match parseIntTok (c :: r) with
            | some (i, r') => some (.num i, r')
            | none => none
          else none
      | [] => none
/-- One-or-more comma-separated array elements, consuming the closing `]`. -/
def parseItems : Nat → List Char → Option (List Value × List Char)
  | 0, _ => none
  | fuel + 1, cs =>
      match parseVal fuel cs with
      | some (v, ',' :: r) =>
          match parseItems fuel r with
          | some (vs, r') => some (v :: vs, r')
          | none => none
      | some (v, ']' :: r) => some ([v], r)
      | _ => none
/-- One-or-more comma-separated object members, consuming the closing brace;
returns the raw key/value sequence in source order. -/
def parsePairs : Nat → List Char → Option (List (String × Value) × List Char)
  | 0, _ => none
  | fuel + 1, cs =>
      match cs with
      | '"' :: r =>
          match parseStrChars r with
          | some (kcs, ':' :: r1) =>
              match parseVal fuel r1 with
              | some (v, ',' :: r2) =>
                  match parsePairs fuel r2 with
                  | some (ps, r3) => some ((String.mk kcs, v) :: ps, r3)
                  | none => none
              | some (v, c :: r2) =>
                  if c = curlyClose then some ([(String.mk kcs, v)], r2) else none
              | _ => none
          | _ => none
      | _ => none
end

/-- The platform's `JSON.parse` on a stored blob: parse one value consuming
the whole input (`JSON.parse` rejects trailing characters). -/
def parseJson (s : String) : Option Value :=
  match parseVal (s.length + 1) s.data with
  | some (v, []) => some v
  | _ => none

/-- Index-keyed properties an array contributes when spread into an object
literal: `("0", a0), ("1", a1), ...`. -/
def arrPropsFrom (i : Nat) : List Value → List (String × Value)
  | [] => []
  | e :: es => (String.mk (natChars i), e) :: arrPropsFrom (i + 1) es

/-- Spread source of a `typeof`-object operand: an object contributes its
members, an array contributes index-keyed properties (`"0"`, `"1"`, ...).
Other tags never reach the spread in `setWithExpiry` (guarded by `typeof`). -/
def propsOf : Value → List (String × Value)
  | .obj fs => fs
  | .arr es => arrPropsFrom 0 es
  | _ => []

/-- The merge-on-write rule of `SQLiteDatabase.setWithExpiry` (lines 149-164):
no existing value — incoming; incoming string — incoming; both arrays —
concatenation; both `typeof === "object"` — object spread of the two operands
(arrays included, since `typeof [] === "object"`); otherwise — incoming. -/
def mergeValue : Option Value → Value → Value
  | none, v => v
  | some ex, v =>
      if isStringV v then v
      else
        match ex, v with
        | .arr a, .arr b => .arr (a ++ b)
        | exv, vv =>
            if typeofObject exv && typeofObject vv then
              .obj (objFromProps (propsOf exv ++ propsOf vv))
            else vv

/-- One row of the `kv_store` table: `key TEXT PRIMARY KEY`, `value TEXT`
(the JSON blob), `expiry INTEGER` (nullable epoch milliseconds), `one_time
INTEGER DEFAULT 0` (modelled as `Bool`). -/
structure Row where
  key : String
  value : String
  expiry : Option Int
  one_time : Bool
deriving DecidableEq

/-- The table contents in rowid (insertion) order. -/
abbrev Store := List Row

/-- `SELECT ... WHERE key = ?` — the first row with the key. -/
def lookupRow (st : Store) (k : String) : Option Row :=
  List.find? (fun r => r.key = k) st

/-- `DELETE FROM t WHERE key = ?` — removes every row with the key. -/
def deleteRows (st : Store) (k : String) : Store :=
  List.filter (fun r => r.key ≠ k) st

/-- Whether any row carries the key (the `changes > 0` result of a delete). -/
def hasKey (st : Store) (k : String) : Bool :=
  List.any st (fun r => r.key = k)

/-- `INSERT OR REPLACE` — deletes the conflicting row and appends the new row
(a replaced row gets a fresh rowid, so it moves to the end of scan order). -/
def insertOrReplace (st : Store) (r : Row) : Store :=
  deleteRows st r.key ++ [r]

/-- JS truthiness test of the expiry column combined with `expiry < now`:
`null` and `0` are falsy, so only a present, nonzero expiry below `now`
counts as expired (`database.ts` lines 190-194). -/
def expiredB : Option Int → Int → Bool
  | none, _ => false
  | some e, now => e ≠ 0 && e < now

/-- `SQLiteDatabase.get` on an open handle (lines 181-204): fetch the row;
absent row or empty blob — `null`; expired — delete and `null`; one-time —
delete after reading; otherwise return the decoded blob.  Returns the result
and the store after the read's side effects. -/
def sGet (now : Int) (st : Store) (k : String) : Option Value × Store :=
  match lookupRow st k with
  | none => (none, st)
  | some r =>
      if r.value = "" then (none, st)
      else if expiredB r.expiry now then (none, deleteRows st k)
      else if r.one_time then (parseJson r.value, deleteRows st k)
      else (parseJson r.value, st)

/-- `SQLiteDatabase.setWithExpiry` on an open handle (lines 146-174): read the
current value through `get` (including its lazy-deletion side effects), merge,
write the JSON blob with this call's expiry and one-time flag. -/
def sSetWithExpiry (now : Int) (st : Store) (k : String) (v : Value)
    (expiry : Option Int) (oneTime : Bool) : Store :=
  let p := sGet now st k
  insertOrReplace p.2 ⟨k, serStr (mergeValue p.1 v), expiry, oneTime⟩

/-- `SQLiteDatabase.set` — no expiry. -/
def sSet (now : Int) (st : Store) (k : String) (v : Value) (oneTime : Bool) :
    Store :=
  sSetWithExpiry now st k v none oneTime

/-- `SQLiteDatabase.setex` (lines 127-134) — expiry `now + seconds * 1000`;
the one-time flag passed to `setWithExpiry` is hard-coded `false`. -/
def sSetex (now : Int) (st : Store) (k : String) (seconds : Int) (v : Value) :
    Store :=
  sSetWithExpiry now st k v (some (now + seconds * 1000)) false

/-- `SQLiteKV.setex` (kvstore.ts lines 81-89): forwards `key, seconds, value,
oneTime` to `SQLiteDatabase.setex` — whose parameter list stops at `value`, so
the `oneTime` argument is discarded. -/
def kvSetex (now : Int) (st : Store) (k : String) (seconds : Int) (v : Value)
    (_oneTime : Bool) : Store :=
  sSetex now st k seconds v

/-- `SQLiteDatabase.delete` on an open handle: the rows after deletion and the
`changes > 0` flag. -/
def sDelete (st : Store) (k : String) : Bool × Store :=
  (hasKey st k, deleteRows st k)

/-- `SQLiteDatabase.ttl` on an open handle (lines 320-335): `null` for a
missing row or falsy (absent or zero) expiry, else `max(expiry - now, 0)`. -/
def sTtl (now : Int) (st : Store) (k : String) : Option Int :=
  match lookupRow st k with
  | none => none
  | some r =>
      match r.expiry with
      | none => none
      | some e => if e = 0 then none else some (max (e - now) 0)

/-- ASCII lower-casing, as SQLite `LIKE` applies to both operands. -/
def lcase (c : Char) : Char :=
  if 65 ≤ c.toNat && c.toNat ≤ 90 then Char.ofNat (c.toNat + 32) else c

/-- SQLite `LIKE` matching without an `ESCAPE` clause: `%` matches any run,
`_` matches one character, every other character (backslash included) matches
itself case-insensitively.  Fuelled to keep the recursion structural; fuel
`pattern + string + 1` always suffices. -/
def likeAux : Nat → List Char → List Char → Bool
  | 0, _, _ => false
  | _ + 1, [], s => s.isEmpty
  | fuel + 1, '%' :: ps, s =>
      likeAux fuel ps s ||
        (match s with
         | [] => false
         | _ :: s' => likeAux fuel ('%' :: ps) s')
  | _ + 1, '_' :: _, [] => false
  | fuel + 1, '_' :: ps, _ :: s' => likeAux fuel ps s'
  | _ + 1, _ :: _, [] => false
  | fuel + 1, p :: ps, c :: s' => (lcase p = lcase c) && likeAux fuel ps s'

/-- SQLite `LIKE` on strings. -/
def likeMatch (p s : String) : Bool :=
  likeAux (p.length + s.length + 1) p.data s.data

/-- The pattern transformation in `SQLiteDatabase.keys` (line 243): every `%`
becomes backslash-`%` and every `_` becomes backslash-`_` (two sequential
global replaces; the first introduces no `_`, so one pass per character is
equivalent). -/
def escapeLikeChars : List Char → List Char
  | [] => []
  | c :: cs =>
      if c = '%' then '\\' :: '%' :: escapeLikeChars cs
      else if c = '_' then '\\' :: '_' :: escapeLikeChars cs
      else c :: escapeLikeChars cs

/-- `SQLiteDatabase.keys` on an open handle (lines 233-248): all keys in scan
order; with a pattern (JS-truthy, i.e. nonempty) the keys are filtered by
`LIKE` against the escaped pattern. -/
def sKeys (st : Store) (pattern : Option String) : List String :=
  match pattern with
  | none => List.map (fun r => r.key) st
  | some p =>
      if p = "" then List.map (fun r => r.key) st
      else
        List.map (fun r => r.key)
          (List.filter (fun r => likeMatch (String.mk (escapeLikeChars p.data)) r.key) st)

/-- `SQLiteKV.mget` reads (kvstore.ts line 141): one `get` per key, threaded
sequentially in argument order (node resolves these driver calls in order). -/
def mgetRaw (now : Int) (st : Store) : List String → List (Option Value) × Store
  | [] => ([], st)
  | k :: ks =>
      let p := sGet now st k
      let q := mgetRaw now p.2 ks
      (p.1 :: q.1, q.2)

/-- `SQLiteKV.mget` (kvstore.ts lines 139-143): the per-key results with the
`null` entries filtered out. -/
def kvMget (now : Int) (st : Store) (ks : List String) :
    List Value × Store :=
  let p := mgetRaw now st ks
  (List.filterMap id p.1, p.2)

/-- The nullable handle: `none` models `this.db === null` (before `init` or
after `close`). -/
abbrev Database := Option Store

/-- `SQLiteDatabase.get` including the handle check (lines 177-180): a null
handle yields `null` — no error. -/
def dbGet (db : Database) (now : Int) (k : String) : Option Value × Database :=
  match db with
  | none => (none, none)
  | some st =>
      let p := sGet now st k
      (p.1, some p.2)

/-- `SQLiteDatabase.set` including the handle check inside `setWithExpiry`
(lines 142-144): a null handle throws `Database not initialized`. -/
def dbSet (db : Database) (now : Int) (k : String) (v : Value) (oneTime : Bool) :
    Except String (Bool × Store) :=
  match db with
  | none => .error "Database not initialized"
  | some st => .ok (true, sSet now st k v oneTime)

/-- `SQLiteDatabase.delete` including the handle check (lines 207-209): a null
handle throws `Database not initialized`. -/
def dbDelete (db : Database) (k : String) : Except String (Bool × Store) :=
  match db with
  | none => .error "Database not initialized"
  | some st => .ok (sDelete st k)

/-- Pairwise distinctness of a key list. -/
def distinctKeys : List String → Bool
  | [] => true
  | k :: ks => decide (¬ k ∈ ks) && distinctKeys ks

mutual
/-- Well-formedness of a value as a JS runtime value: every object has
pairwise-distinct keys (a JS object cannot carry a key twice). -/
def wfV : Value → Bool
  | .str _ => true
  | .num _ => true
  | .bool _ => true
  | .arr es => wfEs es
  | .obj fs => distinctKeys (List.map Prod.fst fs) && wfFs fs
/-- Well-formedness of array elements. -/
def wfEs : List Value → Bool
  | [] => true
  | e :: es => wfV e && wfEs es
/-- Well-formedness of object member values. -/
def wfFs : List (String × Value) → Bool
  | [] => true
  | f :: fs => wfV f.2 && wfFs fs
end

/-! ## Decimal rendering inverts through the digit parser -/

theorem digitChar_toNat (d : Nat) (h : d < 10) : (digitChar d).toNat = 48 + d := by
  interval_cases d <;> decide

theorem jsDigit_digitChar (d : Nat) (h : d < 10) : jsDigit (digitChar d) = true := by
  interval_cases d <;> decide

theorem natCharsAux_acc (f : Nat) :
    ∀ n acc, n < f → natCharsAux f n acc = natCharsAux f n [] ++ acc := by
  induction f with
  | zero => intro n acc h; omega
  | succ f ih =>
      intro n acc h
      by_cases h10 : n < 10
      · simp [natCharsAux, h10]
      · have h1 : n / 10 < f := by omega
        simp only [natCharsAux, if_neg h10]
        rw [ih (n / 10) (digitChar (n % 10) :: acc) h1,
            ih (n / 10) [digitChar (n % 10)] h1]
        simp

theorem natCharsAux_fuel (n : Nat) : ∀ f, n < f → natCharsAux f n [] = natChars n := by
  induction n using Nat.strong_induction_on with
  | _ n ih =>
      intro f hf
      cases f with
      | zero => omega
      | succ f =>
          by_cases h10 : n < 10
          · simp [natCharsAux, natChars, h10]
          · have hd : n / 10 < n := by omega
            have h1 : n / 10 < f := by omega
            simp only [natCharsAux, natChars, if_neg h10]
            rw [natCharsAux_acc f _ _ h1, ih (n / 10) hd f h1,
                natCharsAux_acc n _ _ (by omega), ih (n / 10) hd n (by omega)]

theorem natChars_unfold (n : Nat) :
    natChars n = (if n < 10 then [] else natChars (n / 10)) ++ [digitChar (n % 10)] := by
  have h1 : natChars n
      = if n < 10 then [digitChar (n % 10)]
        else natCharsAux n (n / 10) [digitChar (n % 10)] := rfl
  by_cases h10 : n < 10
  · rw [h1, if_pos h10, if_pos h10]
    simp
  · rw [h1, if_neg h10, if_neg h10,
        natCharsAux_acc n _ _ (by omega), natCharsAux_fuel (n / 10) n (by omega)]

theorem natChars_digits (n : Nat) : ∀ c ∈ natChars n, jsDigit c = true := by
  induction n using Nat.strong_induction_on with
  | _ n ih =>
      rw [natChars_unfold]
      intro c hc
      rcases List.mem_append.mp hc with h | h
      · by_cases h10 : n < 10
        · simp [h10] at h
        · exact ih (n / 10) (by omega) c (by simpa [h10] using h)
      · rw [List.mem_singleton] at h
        subst h
        exact jsDigit_digitChar _ (Nat.mod_lt _ (by omega))

theorem natChars_ne_nil (n : Nat) : natChars n ≠ [] := by
  rw [natChars_unfold]; simp

theorem natChars_head_digit (n : Nat) :
    ∃ c t, natChars n = c :: t ∧ jsDigit c = true := by
  rcases h : natChars n with _ | ⟨c, t⟩
  · exact absurd h (natChars_ne_nil n)
  · exact ⟨c, t, rfl, natChars_digits n c (h ▸ List.mem_cons_self _ _)⟩

theorem digitsVal_snoc (ds : List Char) (c : Char) :
    digitsVal (ds ++ [c]) = digitsVal ds * 10 + (c.toNat - 48) := by
  simp [digitsVal, List.foldl_append]

theorem digitsVal_natChars (n : Nat) : digitsVal (natChars n) = n := by
  induction n using Nat.strong_induction_on with
  | _ n ih =>
      rw [natChars_unfold, digitsVal_snoc]
      by_cases h10 : n < 10
      · rw [if_pos h10]
        rw [digitChar_toNat _ (Nat.mod_lt _ (by omega))]
        simp [digitsVal]
        omega
      · rw [if_neg h10, ih (n / 10) (by omega),
            digitChar_toNat _ (Nat.mod_lt _ (by omega))]
        omega

theorem takeDigitsL_stop (cs : List Char) (h : noDigitHead cs) :
    takeDigitsL cs = ([], cs) := by
  cases cs with
  | nil => rfl
  | cons c t =>
      have hc : jsDigit c = false := h
      simp [takeDigitsL, hc]

theorem takeDigitsL_run (ds rest : List Char)
    (hds : ∀ c ∈ ds, jsDigit c = true) (hrest : noDigitHead rest) :
    takeDigitsL (ds ++ rest) = (ds, rest) := by
  induction ds with
  | nil => simpa using takeDigitsL_stop rest hrest
  | cons c t ih =>
      have hc := hds c (by simp)
      simp [takeDigitsL, hc, ih (fun x hx => hds x (by simp [hx]))]

theorem parseIntTok_intChars (i : Int) (rest : List Char) (hrest : noDigitHead rest) :
    parseIntTok (intChars i ++ rest) = some (i, rest) := by
  by_cases hneg : i < 0
  · have harg : intChars i ++ rest = '-' :: (natChars i.natAbs ++ rest) := by
      simp [intChars, hneg]
    rw [harg]
    simp only [parseIntTok, if_pos rfl]
    rw [takeDigitsL_run _ _ (natChars_digits _) hrest]
    obtain ⟨c, t, hct, _⟩ := natChars_head_digit i.natAbs
    have hdv : digitsVal (c :: t) = i.natAbs := by rw [← hct, digitsVal_natChars]
    rw [hct]
    show some (-(digitsVal (c :: t) : Int), rest) = some (i, rest)
    rw [hdv]
    have hi : -((i.natAbs : Int)) = i := by omega
    rw [hi]
  · obtain ⟨c, t, hct, hcd⟩ := natChars_head_digit i.natAbs
    have hcm : ¬(c = '-') := by
      intro h
      subst h
      exact absurd hcd (by decide)
    have harg : intChars i ++ rest = c :: (t ++ rest) := by
      simp [intChars, hneg, hct]
    rw [harg]
    simp only [parseIntTok, if_neg hcm]
    have htd : takeDigitsL (c :: (t ++ rest)) = (c :: t, rest) := by
      have h1 := takeDigitsL_run (c :: t) rest
        (by rw [← hct]; exact natChars_digits _) hrest
      simpa using h1
    rw [htd]
    have hdv : digitsVal (c :: t) = i.natAbs := by rw [← hct, digitsVal_natChars]
    show some ((digitsVal (c :: t) : Int), rest) = some (i, rest)
    rw [hdv]
    have hi : ((i.natAbs : Int)) = i := by omega
    rw [hi]

/-! ## String escaping inverts through the string parser -/

theorem hexVal_hexChar (d : Nat) (h : d < 16) : hexVal (hexChar d) = some d := by
  interval_cases d <;> decide

theorem parseStrChars_escChar (c : Char) (r : List Char) :
    parseStrChars (escChar c ++ r)
      = match parseStrChars r with
        | some (s, r') => some (c :: s, r')
        | none => none := by
  by_cases h1 : c = '"'
  · subst h1; rfl
  by_cases h2 : c = '\\'
  · subst h2; rfl
  by_cases h3 : c = '\n'
  · subst h3; rfl
  by_cases h4 : c = '\r'
  · subst h4; rfl
  by_cases h5 : c = '\t'
  · subst h5; rfl
  by_cases h6 : c = Char.ofNat 8
  · subst h6; rfl
  by_cases h7 : c = Char.ofNat 12
  · subst h7; rfl
  by_cases h8 : c.toNat < 32
  · have harg : escChar c
        = ['\\', 'u', '0', '0', hexChar (c.toNat / 16), hexChar (c.toNat % 16)] := by
      simp [escChar, h1, h2, h3, h4, h5, h6, h7, h8]
    rw [harg]
    show (match hex4 '0' '0' (hexChar (c.toNat / 16)) (hexChar (c.toNat % 16)) with
          | some n =>
              (match parseStrChars r with
               | some (s, r') => some (Char.ofNat n :: s, r')
               | none => none)
          | none => none)
        = (match parseStrChars r with
           | some (s, r') => some (c :: s, r')
           | none => none)
    have hh : hex4 '0' '0' (hexChar (c.toNat / 16)) (hexChar (c.toNat % 16))
        = some c.toNat := by
      have e0 : hexVal '0' = some 0 := by decide
      have e1 := hexVal_hexChar (c.toNat / 16) (by omega)
      have e2 := hexVal_hexChar (c.toNat % 16) (by omega)
      simp only [hex4, e0, e1, e2]
      congr 1
      omega
    rw [hh]
    show (match parseStrChars r with
          | some (s, r') => some (Char.ofNat c.toNat :: s, r')
          | none => none)
        = (match parseStrChars r with
           | some (s, r') => some (c :: s, r')
           | none => none)
    rw [Char.ofNat_toNat]
  · have harg : escChar c = [c] := by
      simp [escChar, h1, h2, h3, h4, h5, h6, h7, h8]
    rw [harg]
    show parseStrChars (c :: r)
        = (match parseStrChars r with
           | some (s, r') => some (c :: s, r')
           | none => none)
    rw [parseStrChars.eq_def]
    split
    · rename_i heq
      simp at heq
    · rename_i heq
      injection heq with hc _
      exact absurd hc h1
    · rename_i heq
      injection heq with hc _
      exact absurd hc h2
    · rename_i heq
      injection heq with hc _
      exact absurd hc h2
    · rename_i heq
      injection heq with hc hr
      rw [hc, hr]

theorem parseStrChars_body (cs : List Char) : ∀ r : List Char,
    parseStrChars (escBody cs ++ ('"' :: r)) = some (cs, r) := by
  induction cs with
  | nil => intro r; rfl
  | cons c t ih =>
      intro r
      rw [escBody, List.append_assoc, parseStrChars_escChar, ih r]

/-! ## JS property assignment on fresh keys is plain append -/

theorem insertProp_fresh (ps : List (String × Value)) (k : String) (v : Value)
    (h : ∀ p ∈ ps, (p : String × Value).1 ≠ k) : insertProp ps k v = ps ++ [(k, v)] := by
  induction ps with
  | nil => rfl
  | cons p ps ih =>
      obtain ⟨k', v'⟩ := p
      have hp : ¬(k' = k) := by simpa using h (k', v') (by simp)
      simp [insertProp, hp, ih (fun q hq => h q (by simp [hq]))]

theorem assignProps_fresh : ∀ (ps acc : List (String × Value)),
    distinctKeys (List.map Prod.fst ps) = true →
    (∀ p ∈ ps, ∀ q ∈ acc, (q : String × Value).1 ≠ (p : String × Value).1) →
    List.foldl (fun a p => insertProp a p.1 p.2) acc ps = acc ++ ps := by
  intro ps
  induction ps with
  | nil => intro acc _ _; simp
  | cons p ps ih =>
      intro acc hd hdisj
      obtain ⟨k, v⟩ := p
      simp only [List.map_cons, distinctKeys, Bool.and_eq_true, decide_eq_true_eq] at hd
      simp only [List.foldl_cons]
      rw [insertProp_fresh acc k v (fun q hq => hdisj (k, v) (by simp) q hq)]
      rw [ih (acc ++ [(k, v)]) hd.2 ?_]
      · simp
      · intro p' hp' q hq
        rcases List.mem_append.mp hq with hql | hqr
        · exact hdisj p' (by simp [hp']) q hql
        · have hq1 : q = (k, v) := by simpa using hqr
          subst hq1
          intro he
          have hmem : (p' : String × Value).1 ∈ List.map Prod.fst ps :=
            List.mem_map_of_mem _ hp'
          rw [← he] at hmem
          exact hd.1 hmem

theorem objFromProps_distinct (ps : List (String × Value))
    (h : distinctKeys (List.map Prod.fst ps) = true) : objFromProps ps = ps := by
  have h1 := assignProps_fresh ps [] h (by simp)
  simpa [objFromProps] using h1

/-! ## Head shapes of rendered values and parser dispatch -/

theorem jsDigit_excl (c : Char) (h : jsDigit c = true) :
    c ≠ 't' ∧ c ≠ 'f' ∧ c ≠ '"' ∧ c ≠ '[' ∧ c ≠ curlyOpen ∧ c ≠ ']' ∧
      c ≠ ',' ∧ c ≠ '-' ∧ c ≠ curlyClose ∧ c ≠ '\\' := by
  refine ⟨?_, ?_, ?_, ?_, ?_, ?_, ?_, ?_, ?_, ?_⟩ <;>
    (intro heq; subst heq; exact absurd h (by decide))

theorem mk_data (s : String) : String.mk s.data = s := rfl

theorem serV_head (v : Value) :
    ∃ c t, serV v = c :: t ∧
      (c = '"' ∨ c = 't' ∨ c = 'f' ∨ c = '[' ∨ c = curlyOpen ∨ c = '-' ∨
        jsDigit c = true) := by
  cases v with
  | str s => exact ⟨'"', _, rfl, by simp⟩
  | num i =>
      by_cases hneg : i < 0
      · refine ⟨'-', natChars i.natAbs, ?_, by simp⟩
        show intChars i = _
        simp [intChars, hneg]
      · obtain ⟨c, t, hct, hcd⟩ := natChars_head_digit i.natAbs
        refine ⟨c, t, ?_, by simp [hcd]⟩
        show intChars i = _
        simp [intChars, hneg, hct]
  | bool b => cases b with
      | true => exact ⟨'t', _, rfl, by simp⟩
      | false => exact ⟨'f', _, rfl, by simp⟩
  | obj fs => cases fs with
      | nil => exact ⟨curlyOpen, _, rfl, by simp⟩
      | cons f fs => exact ⟨curlyOpen, _, rfl, by simp⟩
  | arr es => cases es with
      | nil => exact ⟨'[', _, rfl, by simp⟩
      | cons e es => exact ⟨'[', _, rfl, by simp⟩

theorem serV_ne_nil (v : Value) : serV v ≠ [] := by
  obtain ⟨c, t, h, _⟩ := serV_head v
  simp [h]

theorem serV_head_not_rbracket (v : Value) :
    ∃ c t, serV v = c :: t ∧ ¬(c = ']') := by
  obtain ⟨c, t, h, hc⟩ := serV_head v
  refine ⟨c, t, h, ?_⟩
  rcases hc with h1 | h1 | h1 | h1 | h1 | h1 | h1 <;>
    first
      | (subst h1; decide)
      | (intro heq; subst heq; exact absurd h1 (by decide))

theorem pv_quote (f : Nat) (r : List Char) :
    parseVal (f + 1) ('"' :: r)
      = match parseStrChars r with
        | some (s, r') => some (.str (String.mk s), r')
        | none => none := rfl

theorem pv_step (f : Nat) (cs : List Char) :
    parseVal (f + 1) cs
      = match cs with
        | 't' :: 'r' :: 'u' :: 'e' :: r => some (.bool true, r)
        | 'f' :: 'a' :: 'l' :: 's' :: 'e' :: r => some (.bool false, r)
        | '"' :: r =>
            match parseStrChars r with
            | some (s, r') => some (.str (String.mk s), r')
            | none => none
        | '[' :: ']' :: r => some (.arr [], r)
        | '[' :: r =>
            match parseItems f r with
            | some (es, r') => some (.arr es, r')
            | none => none
        | c :: r =>
            if c = curlyOpen then
              match r with
              | [] => none
              | c' :: r' =>
                  if c' = curlyClose then some (.obj [], r')
                  else
                    match parsePairs f (c' :: r') with
                    | some (ps, r'') => some (.obj (objFromProps ps), r'')
                    | none => none
            else if c = '-' || jsDigit c then
              match parseIntTok (c :: r) with
              | some (i, r') => some (.num i, r')
              | none => none
            else none
        | [] => none := rfl

theorem pv_arr (f : Nat) (c : Char) (t : List Char) (hc : ¬(c = ']')) :
    parseVal (f + 1) ('[' :: c :: t)
      = match parseItems f (c :: t) with
        | some (es, r') => some (.arr es, r')
        | none => none := by
  rw [pv_step]
  split
  · rename_i heq
    injection heq with hc2 _
    exact absurd hc2 (by decide)
  · rename_i heq
    injection heq with hc2 _
    exact absurd hc2 (by decide)
  · rename_i heq
    injection heq with hc2 _
    exact absurd hc2 (by decide)
  · rename_i heq
    injection heq with hc2 heq2
    injection heq2 with hc3 _
    exact absurd hc3 hc
  · rename_i heq
    injection heq with hc2 heq2
    rw [heq2]
  · rename_i hcons heq
    injection heq with hc2 _
    exact absurd hc2.symm hcons
  · rename_i heq
    exact absurd heq (by simp)

theorem pv_objNil (f : Nat) (r : List Char) :
    parseVal (f + 1) (curlyOpen :: curlyClose :: r) = some (.obj [], r) := by
  rw [pv_step]
  split
  · rename_i heq
    injection heq with hc2 _
    exact absurd hc2 (by decide)
  · rename_i heq
    injection heq with hc2 _
    exact absurd hc2 (by decide)
  · rename_i heq
    injection heq with hc2 _
    exact absurd hc2 (by decide)
  · rename_i heq
    injection heq with hc2 _
    exact absurd hc2 (by decide)
  · rename_i heq
    injection heq with hc2 _
    exact absurd hc2 (by decide)
  · rename_i heq
    injection heq with hc2 heq2
    rw [← hc2, ← heq2, if_pos rfl]
    simp
  · rename_i heq
    exact absurd heq (by simp)

theorem pv_objCons (f : Nat) (t : List Char) :
    parseVal (f + 1) (curlyOpen :: '"' :: t)
      = match parsePairs f ('"' :: t) with
        | some (ps, r') => some (.obj (objFromProps ps), r')
        | none => none := by
  rw [pv_step]
  split
  · rename_i heq
    injection heq with hc2 _
    exact absurd hc2 (by decide)
  · rename_i heq
    injection heq with hc2 _
    exact absurd hc2 (by decide)
  · rename_i heq
    injection heq with hc2 _
    exact absurd hc2 (by decide)
  · rename_i heq
    injection heq with hc2 _
    exact absurd hc2 (by decide)
  · rename_i heq
    injection heq with hc2 _
    exact absurd hc2 (by decide)
  · rename_i heq
    injection heq with hc2 heq2
    have hq : ¬(('"' : Char) = curlyClose) := by decide
    rw [← hc2, ← heq2, if_pos rfl]
    show (if ('"' : Char) = curlyClose then some (Value.obj [], t)
          else
            match parsePairs f ('"' :: t) with
            | some (ps, r'') => some (.obj (objFromProps ps), r'')
            | none => none)
        = _
    rw [if_neg hq]
  · rename_i heq
    exact absurd heq (by simp)

theorem numHead_excl (c : Char) (h : c = '-' ∨ jsDigit c = true) :
    c ≠ 't' ∧ c ≠ 'f' ∧ c ≠ '"' ∧ c ≠ '[' ∧ c ≠ curlyOpen := by
  rcases h with h | h
  · subst h
    exact ⟨by decide, by decide, by decide, by decide, by decide⟩
  · obtain ⟨a, b, c1, d, e, _, _, _, _, _⟩ := jsDigit_excl _ h
    exact ⟨a, b, c1, d, e⟩

theorem pv_num (f : Nat) (c : Char) (t : List Char)
    (hnum : c = '-' ∨ jsDigit c = true) :
    parseVal (f + 1) (c :: t)
      = match parseIntTok (c :: t) with
        | some (i, r') => some (.num i, r')
        | none => none := by
  obtain ⟨h1, h2, h3, h4, h5⟩ := numHead_excl c hnum
  have hb : (decide (c = '-') || jsDigit c) = true := by
    rcases hnum with h | h
    · simp [h]
    · simp [h]
  rw [pv_step]
  split
  · rename_i heq
    injection heq with hc2 _
    exact absurd hc2 h1
  · rename_i heq
    injection heq with hc2 _
    exact absurd hc2 h2
  · rename_i heq
    injection heq with hc2 _
    exact absurd hc2 h3
  · rename_i heq
    injection heq with hc2 _
    exact absurd hc2 h4
  · rename_i heq
    injection heq with hc2 _
    exact absurd hc2 h4
  · rename_i heq
    injection heq with hc2 heq2
    rw [← hc2, ← heq2, if_neg h5, if_pos hb]
  · rename_i heq
    exact absurd heq (by simp)

theorem pi_step (f : Nat) (cs : List Char) :
    parseItems (f + 1) cs
      = match parseVal f cs with
        | some (v, ',' :: r) =>
            (match parseItems f r with
             | some (vs, r') => some (v :: vs, r')
             | none => none)
        | some (v, ']' :: r) => some ([v], r)
        | _ => none := rfl

theorem pp_step (f : Nat) (cs : List Char) :
    parsePairs (f + 1) cs
      = match cs with
        | '"' :: r =>
            (match parseStrChars r with
             | some (kcs, ':' :: r1) =>
                 (match parseVal f r1 with
                  | some (v, ',' :: r2) =>
                      (match parsePairs f r2 with
                       | some (ps, r3) => some ((String.mk kcs, v) :: ps, r3)
                       | none => none)
                  | some (v, c :: r2) =>
                      if c = curlyClose then some ([(String.mk kcs, v)], r2) else none
                  | _ => none)
             | _ => none)
        | _ => none := rfl

/-! ## The codec round-trip: parsing a rendered value recovers it -/

mutual
theorem rtV : ∀ (v : Value) (fuel : Nat) (rest : List Char),
    wfV v = true → (serV v).length < fuel → noDigitHead rest →
    parseVal fuel (serV v ++ rest) = some (v, rest)
  | .str s, fuel, rest, _, hf, _ => by
      cases fuel with
      | zero => exact absurd hf (by omega)
      | succ f =>
          have harg : serV (.str s) ++ rest
              = '"' :: (escBody s.data ++ ('"' :: rest)) := by
            show serStrLit s ++ rest = _
            simp [serStrLit]
          rw [harg, pv_quote, parseStrChars_body]
  | .num i, fuel, rest, _, hf, hr => by
      cases fuel with
      | zero => exact absurd hf (by omega)
      | succ f =>
          by_cases hneg : i < 0
          · have harg : serV (.num i) ++ rest
                = '-' :: (natChars i.natAbs ++ rest) := by
              show intChars i ++ rest = _
              simp [intChars, hneg]
            rw [harg, pv_num f '-' _ (Or.inl rfl), ← harg]
            have hs : serV (.num i) ++ rest = intChars i ++ rest := rfl
            rw [hs, parseIntTok_intChars i rest hr]
          · obtain ⟨c, t, hct, hcd⟩ := natChars_head_digit i.natAbs
            have harg : serV (.num i) ++ rest = c :: (t ++ rest) := by
              show intChars i ++ rest = _
              simp [intChars, hneg, hct]
            rw [harg, pv_num f c _ (Or.inr hcd), ← harg]
            have hs : serV (.num i) ++ rest = intChars i ++ rest := rfl
            rw [hs, parseIntTok_intChars i rest hr]
  | .bool b, fuel, rest, _, hf, _ => by
      cases fuel with
      | zero => exact absurd hf (by cases b <;> omega)
      | succ f => cases b <;> rfl
  | .arr [], fuel, rest, _, hf, _ => by
      cases fuel with
      | zero => exact absurd hf (by omega)
      | succ f => rfl
  | .arr (e :: es), fuel, rest, hw, hf, _ => by
      cases fuel with
      | zero => exact absurd hf (by omega)
      | succ f =>
          obtain ⟨c0, t0, he0, hc0⟩ := serV_head_not_rbracket e
          have harg : serV (.arr (e :: es)) ++ rest
              = '[' :: c0 :: (t0 ++ (serMore es ++ (']' :: rest))) := by
            show ('[' :: (serV e ++ (serMore es ++ [']']))) ++ rest = _
            rw [he0]
            simp
          have hb : (c0 :: (t0 ++ (serMore es ++ (']' :: rest))))
              = serV e ++ (serMore es ++ (']' :: rest)) := by
            rw [he0]
            simp
          have hlen : (serV e).length + (serMore es).length + 1 < f := by
            have hl2 : (serV (.arr (e :: es))).length
                = (serV e).length + (serMore es).length + 2 := by
              show ('[' :: (serV e ++ (serMore es ++ [']']))).length = _
              simp only [List.length_cons, List.length_append, List.length_nil]
              omega
            omega
          rw [harg, pv_arr f c0 _ hc0, hb, rtItems e es f rest hw hlen]
  | .obj [], fuel, rest, _, hf, _ => by
      cases fuel with
      | zero => exact absurd hf (by omega)
      | succ f =>
          have harg : serV (.obj []) ++ rest = curlyOpen :: curlyClose :: rest := rfl
          rw [harg, pv_objNil]
  | .obj ((k, v) :: fs), fuel, rest, hw, hf, _ => by
      cases fuel with
      | zero => exact absurd hf (by omega)
      | succ f =>
          have hw2 : (distinctKeys (List.map Prod.fst ((k, v) :: fs))
              && wfFs ((k, v) :: fs)) = true := hw
          rw [Bool.and_eq_true] at hw2
          have harg : serV (.obj ((k, v) :: fs)) ++ rest
              = curlyOpen :: '"' :: ((escBody k.data ++ ['"'])
                  ++ ((':' :: serV v) ++ (serMoreF fs ++ (curlyClose :: rest)))) := by
            show (curlyOpen :: (serField (k, v) ++ (serMoreF fs ++ [curlyClose]))) ++ rest = _
            show curlyOpen :: ((serStrLit k ++ (':' :: serV v)) ++ (serMoreF fs ++ [curlyClose])) ++ rest = _
            simp [serStrLit]
          have hb : ('"' : Char) :: ((escBody k.data ++ ['"'])
                  ++ ((':' :: serV v) ++ (serMoreF fs ++ (curlyClose :: rest))))
              = serField (k, v) ++ (serMoreF fs ++ (curlyClose :: rest)) := by
            show _ = (serStrLit k ++ (':' :: serV v)) ++ (serMoreF fs ++ (curlyClose :: rest))
            simp [serStrLit]
          have hlen : (serField (k, v)).length + (serMoreF fs).length + 1 < f := by
            have hl2 : (serV (.obj ((k, v) :: fs))).length
                = (serField (k, v)).length + (serMoreF fs).length + 2 := by
              show (curlyOpen :: (serField (k, v) ++ (serMoreF fs ++ [curlyClose]))).length = _
              simp only [List.length_cons, List.length_append, List.length_nil]
              omega
            omega
          rw [harg, pv_objCons, hb, rtPairs k v fs f rest hw2.2 hlen]
          show some (Value.obj (objFromProps ((k, v) :: fs)), rest)
              = some (Value.obj ((k, v) :: fs), rest)
          rw [objFromProps_distinct _ hw2.1]
termination_by v _ _ _ _ _ => sizeOf v
theorem rtItems : ∀ (e : Value) (es : List Value) (fuel : Nat) (rest : List Char),
    wfEs (e :: es) = true →
    (serV e).length + (serMore es).length + 1 < fuel →
    parseItems fuel (serV e ++ (serMore es ++ (']' :: rest))) = some (e :: es, rest)
  | e, [], fuel, rest, hw, hf => by
      cases fuel with
      | zero => exact absurd hf (by omega)
      | succ f =>
          have hwe : (wfV e && wfEs ([] : List Value)) = true := hw
          rw [Bool.and_eq_true] at hwe
          have hfe : (serV e).length < f := by
            have hnil : (serMore ([] : List Value)).length = 0 := rfl
            omega
          have harg : serV e ++ (serMore ([] : List Value) ++ (']' :: rest))
              = serV e ++ (']' :: rest) := by
            show serV e ++ (([] : List Char) ++ (']' :: rest)) = _
            simp
          rw [harg, pi_step, rtV e f (']' :: rest) hwe.1 hfe rfl]
          rfl
  | e, x :: xs, fuel, rest, hw, hf => by
      cases fuel with
      | zero => exact absurd hf (by omega)
      | succ f =>
          have hwe : (wfV e && wfEs (x :: xs)) = true := hw
          rw [Bool.and_eq_true] at hwe
          have hep : 0 < (serV e).length := List.length_pos.mpr (serV_ne_nil e)
          have hxp : 0 < (serV x).length := List.length_pos.mpr (serV_ne_nil x)
          have hsm : (serMore (x :: xs)).length
              = 1 + (serV x).length + (serMore xs).length := by
            show (',' :: (serV x ++ serMore xs)).length = _
            simp only [List.length_cons, List.length_append, List.length_nil]
            omega
          have hfe : (serV e).length < f := by omega
          have hfx : (serV x).length + (serMore xs).length + 1 < f := by omega
          have harg : serV e ++ (serMore (x :: xs) ++ (']' :: rest))
              = serV e ++ (',' :: (serV x ++ (serMore xs ++ (']' :: rest)))) := by
            show serV e ++ ((',' :: (serV x ++ serMore xs)) ++ (']' :: rest)) = _
            simp
          rw [harg, pi_step,
              rtV e f (',' :: (serV x ++ (serMore xs ++ (']' :: rest)))) hwe.1 hfe rfl]
          show (match parseItems f (serV x ++ (serMore xs ++ (']' :: rest))) with
                | some (vs, r') => some (e :: vs, r')
                | none => none)
              = some (e :: x :: xs, rest)
          rw [rtItems x xs f rest hwe.2 hfx]
termination_by e es _ _ _ _ => sizeOf e + sizeOf es
theorem rtPairs : ∀ (k : String) (v : Value) (fs : List (String × Value))
    (fuel : Nat) (rest : List Char),
    wfFs ((k, v) :: fs) = true →
    (serField (k, v)).length + (serMoreF fs).length + 1 < fuel →
    parsePairs fuel (serField (k, v) ++ (serMoreF fs ++ (curlyClose :: rest)))
      = some ((k, v) :: fs, rest)
  | k, v, [], fuel, rest, hw, hf => by
      cases fuel with
      | zero => exact absurd hf (by omega)
      | succ f =>
          have hwv : (wfV v && wfFs ([] : List (String × Value))) = true := hw
          rw [Bool.and_eq_true] at hwv
          have hsf : (serField (k, v)).length
              = (serStrLit k).length + 1 + (serV v).length := by
            show (serStrLit k ++ (':' :: serV v)).length = _
            simp only [List.length_cons, List.length_append, List.length_nil]
            omega
          have hfv : (serV v).length < f := by omega
          have harg : serField (k, v) ++ (serMoreF ([] : List (String × Value))
              ++ (curlyClose :: rest))
              = '"' :: (escBody k.data ++ ('"' :: (':' :: (serV v ++ (curlyClose :: rest))))) := by
            show (serStrLit k ++ (':' :: serV v)) ++ (([] : List Char) ++ (curlyClose :: rest)) = _
            simp [serStrLit]
          rw [harg, pp_step]
          show (match parseStrChars (escBody k.data
                  ++ ('"' :: (':' :: (serV v ++ (curlyClose :: rest))))) with
                | some (kcs, ':' :: r1) =>
                    (match parseVal f r1 with
                     | some (v', ',' :: r2) =>
                         (match parsePairs f r2 with
                          | some (ps, r3) => some ((String.mk kcs, v') :: ps, r3)
                          | none => none)
                     | some (v', c :: r2) =>
                         if c = curlyClose then some ([(String.mk kcs, v')], r2) else none
                     | _ => none)
                | _ => none)
              = some ([(k, v)], rest)
          rw [parseStrChars_body]
          show (match parseVal f (serV v ++ (curlyClose :: rest)) with
                | some (v', ',' :: r2) =>
                    (match parsePairs f r2 with
                     | some (ps, r3) => some ((String.mk k.data, v') :: ps, r3)
                     | none => none)
                | some (v', c :: r2) =>
                    if c = curlyClose then some ([(String.mk k.data, v')], r2) else none
                | _ => none)
              = some ([(k, v)], rest)
          rw [rtV v f (curlyClose :: rest) hwv.1 hfv rfl]
          rfl
  | k, v, (k2, v2) :: fs2, fuel, rest, hw, hf => by
      cases fuel with
      | zero => exact absurd hf (by omega)
      | succ f =>
          have hwv : (wfV v && wfFs ((k2, v2) :: fs2)) = true := hw
          rw [Bool.and_eq_true] at hwv
          have hsf : (serField (k, v)).length
              = (serStrLit k).length + 1 + (serV v).length := by
            show (serStrLit k ++ (':' :: serV v)).length = _
            simp only [List.length_cons, List.length_append, List.length_nil]
            omega
          have hsp : 0 < (serStrLit k).length := by
            show 0 < ('"' :: (escBody k.data ++ ['"'])).length
            simp
          have hsm : (serMoreF ((k2, v2) :: fs2)).length
              = 1 + (serField (k2, v2)).length + (serMoreF fs2).length := by
            show (',' :: (serField (k2, v2) ++ serMoreF fs2)).length = _
            simp only [List.length_cons, List.length_append, List.length_nil]
            omega
          have hfv : (serV v).length < f := by omega
          have hf2 : (serField (k2, v2)).length + (serMoreF fs2).length + 1 < f := by
            omega
          have harg : serField (k, v) ++ (serMoreF ((k2, v2) :: fs2) ++ (curlyClose :: rest))
              = '"' :: (escBody k.data ++ ('"' :: (':' :: (serV v
                  ++ (',' :: (serField (k2, v2) ++ (serMoreF fs2 ++ (curlyClose :: rest)))))))) := by
            show (serStrLit k ++ (':' :: serV v))
                ++ ((',' :: (serField (k2, v2) ++ serMoreF fs2)) ++ (curlyClose :: rest)) = _
            simp [serStrLit]
          rw [harg, pp_step]
          show (match parseStrChars (escBody k.data ++ ('"' :: (':' :: (serV v
                  ++ (',' :: (serField (k2, v2) ++ (serMoreF fs2 ++ (curlyClose :: rest)))))))) with
                | some (kcs, ':' :: r1) =>
                    (match parseVal f r1 with
                     | some (v', ',' :: r2) =>
                         (match parsePairs f r2 with
                          | some (ps, r3) => some ((String.mk kcs, v') :: ps, r3)
                          | none => none)
                     | some (v', c :: r2) =>
                         if c = curlyClose then some ([(String.mk kcs, v')], r2) else none
                     | _ => none)
                | _ => none)
              = some ((k, v) :: (k2, v2) :: fs2, rest)
          rw [parseStrChars_body]
          show (match parseVal f (serV v
                  ++ (',' :: (serField (k2, v2) ++ (serMoreF fs2 ++ (curlyClose :: rest))))) with
                | some (v', ',' :: r2) =>
                    (match parsePairs f r2 with
                     | some (ps, r3) => some ((String.mk k.data, v') :: ps, r3)
                     | none => none)
                | some (v', c :: r2) =>
                    if c = curlyClose then some ([(String.mk k.data, v')], r2) else none
                | _ => none)
              = some ((k, v) :: (k2, v2) :: fs2, rest)
          rw [rtV v f (',' :: (serField (k2, v2) ++ (serMoreF fs2 ++ (curlyClose :: rest))))
              hwv.1 hfv rfl]
          show (match parsePairs f (serField (k2, v2) ++ (serMoreF fs2 ++ (curlyClose :: rest))) with
                | some (ps, r3) => some ((String.mk k.data, v) :: ps, r3)
                | none => none)
              = some ((k, v) :: (k2, v2) :: fs2, rest)
          rw [rtPairs k2 v2 fs2 f rest hwv.2 hf2]
termination_by k v fs _ _ _ _ => sizeOf v + sizeOf fs
end

/-- Top-level codec round-trip: `JSON.parse` recovers every well-formed value
from its `JSON.stringify` output. -/
theorem parseJson_serStr (v : Value) (hw : wfV v = true) :
    parseJson (serStr v) = some v := by
  have hdata : (serStr v).data = serV v := rfl
  have hlen : (serStr v).length = (serV v).length := rfl
  have h1 := rtV v ((serV v).length + 1) [] hw (by omega) trivial
  rw [List.append_nil] at h1
  rw [parseJson, hdata, hlen, h1]

theorem serStr_ne_empty (v : Value) : serStr v ≠ "" := by
  intro h
  exact serV_ne_nil v (congrArg String.data h)

/-! ## The merge rule is plain replacement off the object/array diagonal -/

theorem mergeValue_replace (ex v : Value)
    (h : ¬(typeofObject ex = true ∧ typeofObject v = true)) :
    mergeValue (some ex) v = v := by
  cases ex <;> cases v <;> simp_all [mergeValue, isStringV, typeofObject]

/-! ## Row-store lemmas -/

theorem deleteRows_of_absent (st : Store) (k : String) (h : lookupRow st k = none) :
    deleteRows st k = st := by
  rw [lookupRow, List.find?_eq_none] at h
  rw [deleteRows]
  apply List.filter_eq_self.mpr
  intro r hr
  have h2 := h r hr
  simp at h2 ⊢
  exact h2

theorem lookupRow_deleteRows (st : Store) (k : String) :
    lookupRow (deleteRows st k) k = none := by
  rw [lookupRow, List.find?_eq_none]
  intro r hr
  rw [deleteRows, List.mem_filter] at hr
  simpa using hr.2

theorem deleteRows_idem (st : Store) (k : String) :
    deleteRows (deleteRows st k) k = deleteRows st k :=
  deleteRows_of_absent _ _ (lookupRow_deleteRows st k)

theorem lookupRow_insertOrReplace (st : Store) (r : Row) :
    lookupRow (insertOrReplace st r) r.key = some r := by
  rw [insertOrReplace, lookupRow, List.find?_append,
      show List.find? (fun x => x.key = r.key) (deleteRows st r.key) = none from
        lookupRow_deleteRows st r.key]
  simp [List.find?]

theorem lookupRow_append_one (st : Store) (k : String) (r : Row)
    (h : lookupRow st k = none) (hr : r.key = k) :
    lookupRow (st ++ [r]) k = some r := by
  rw [lookupRow, List.find?_append, show List.find? (fun x => x.key = k) st = none from h]
  simp [List.find?, hr]

theorem deleteRows_append (st1 st2 : Store) (k : String) :
    deleteRows (st1 ++ st2) k = deleteRows st1 k ++ deleteRows st2 k := by
  rw [deleteRows, deleteRows, deleteRows, List.filter_append]

theorem deleteRows_single_hit (r : Row) (k : String) (hr : r.key = k) :
    deleteRows [r] k = [] := by
  simp [deleteRows, hr]

/-! ## The read paths of `get` -/

theorem sGet_absent (now : Int) (st : Store) (k : String)
    (h : lookupRow st k = none) : sGet now st k = (none, st) := by
  rw [sGet, h]

theorem sGet_plain (now : Int) (st : Store) (k : String) (r : Row)
    (hl : lookupRow st k = some r) (hv : r.value ≠ "")
    (he : expiredB r.expiry now = false) (ho : r.one_time = false) :
    sGet now st k = (parseJson r.value, st) := by
  rw [sGet, hl]
  simp [hv, he, ho]

theorem sGet_onetime (now : Int) (st : Store) (k : String) (r : Row)
    (hl : lookupRow st k = some r) (hv : r.value ≠ "")
    (he : expiredB r.expiry now = false) (ho : r.one_time = true) :
    sGet now st k = (parseJson r.value, deleteRows st k) := by
  rw [sGet, hl]
  simp [hv, he, ho]

theorem sGet_expired (now : Int) (st : Store) (k : String) (r : Row)
    (hl : lookupRow st k = some r) (hv : r.value ≠ "")
    (he : expiredB r.expiry now = true) :
    sGet now st k = (none, deleteRows st k) := by
  rw [sGet, hl]
  simp [hv, he]

/-! ## The write path of `setWithExpiry` -/

theorem sSetWithExpiry_eq (now : Int) (st : Store) (k : String) (v : Value)
    (e : Option Int) (ot : Bool) :
    sSetWithExpiry now st k v e ot
      = insertOrReplace (sGet now st k).2
          ⟨k, serStr (mergeValue (sGet now st k).1 v), e, ot⟩ := rfl

theorem sSetWithExpiry_absent (now : Int) (st : Store) (k : String) (v : Value)
    (e : Option Int) (ot : Bool) (h : lookupRow st k = none) :
    sSetWithExpiry now st k v e ot = st ++ [⟨k, serStr v, e, ot⟩] := by
  rw [sSetWithExpiry_eq, sGet_absent now st k h]
  show insertOrReplace st ⟨k, serStr v, e, ot⟩ = _
  show deleteRows st k ++ [⟨k, serStr v, e, ot⟩] = _
  rw [deleteRows_of_absent st k h]

theorem sSetWithExpiry_existing (now : Int) (st : Store) (k : String) (r : Row)
    (v : Value) (e : Option Int) (ot : Bool)
    (hl : lookupRow st k = some r) (hv : r.value ≠ "")
    (he : expiredB r.expiry now = false) :
    sSetWithExpiry now st k v e ot
      = deleteRows st k ++ [⟨k, serStr (mergeValue (parseJson r.value) v), e, ot⟩] := by
  rw [sSetWithExpiry_eq]
  by_cases ho : r.one_time
  · rw [sGet_onetime now st k r hl hv he ho]
    show insertOrReplace (deleteRows st k)
        ⟨k, serStr (mergeValue (parseJson r.value) v), e, ot⟩ = _
    show deleteRows (deleteRows st k) k
        ++ [⟨k, serStr (mergeValue (parseJson r.value) v), e, ot⟩] = _
    rw [deleteRows_idem]
  · have ho2 : r.one_time = false := by simpa using ho
    rw [sGet_plain now st k r hl hv he ho2]
    rfl

/-! ## Claim C1 — merge rule: full replace on type mismatch -/

/-- C1 counterexample: with an existing array `[1,2]` and an incoming object
with key `"a"` (not both arrays, not both maps, incoming not a string), the
engine does not store the incoming value unchanged: JS `typeof` calls both
operands `"object"`, so they are spread-merged and `get` returns the object
with keys `"0"`, `"1"`, `"a"` instead of the incoming object. -/
theorem c1_counterexample :
    (sGet 0 (sSet 0 (sSet 0 [] "k" (.arr [.num 1, .num 2]) false) "k"
        (.obj [("a", .num 3)]) false) "k").1
      = some (.obj [("0", .num 1), ("1", .num 2), ("a", .num 3)]) ∧
    some (Value.obj [("0", .num 1), ("1", .num 2), ("a", .num 3)])
      ≠ some (Value.obj [("a", .num 3)]) := by
  constructor
  · rfl
  · simp

/-- C1 (amended): for a write to an existing key whose stored value decodes to
`ex`, if the incoming value is not a string and the existing and incoming
values are not BOTH of JS `typeof === "object"` (each an object or an array),
the engine stores the incoming value unchanged — the new row's blob is exactly
`JSON.stringify` of the incoming value, and a subsequent get returns it.
(The original claim also promised this when exactly one of the two sides is an
array and the other an object; those pairs are spread-merged instead.) -/
theorem c1_full_replace (now now2 : Int) (st : Store) (k : String) (r : Row)
    (ex v : Value) (e : Option Int) (ot : Bool)
    (hl : lookupRow st k = some r) (hv : r.value ≠ "") (hexp : r.expiry = none)
    (hdec : parseJson r.value = some ex)
    (_hs : isStringV v = false)
    (hobj : ¬(typeofObject ex = true ∧ typeofObject v = true))
    (hwf : wfV v = true)
    (hnx : expiredB e now2 = false) :
    (∃ r2, lookupRow (sSetWithExpiry now st k v e ot) k = some r2 ∧
        r2.value = serStr v) ∧
    (sGet now2 (sSetWithExpiry now st k v e ot) k).1 = some v := by
  have hxe : expiredB r.expiry now = false := by rw [hexp]; rfl
  have hset := sSetWithExpiry_existing now st k r v e ot hl hv hxe
  rw [hdec, mergeValue_replace ex v hobj] at hset
  have hlk : lookupRow (deleteRows st k ++ [⟨k, serStr v, e, ot⟩]) k
      = some ⟨k, serStr v, e, ot⟩ :=
    lookupRow_append_one _ k _ (lookupRow_deleteRows st k) rfl
  refine ⟨⟨⟨k, serStr v, e, ot⟩, by rw [hset]; exact hlk, rfl⟩, ?_⟩
  rw [hset]
  by_cases ho : ot
  · rw [show (⟨k, serStr v, e, ot⟩ : Row) = ⟨k, serStr v, e, true⟩ from by rw [ho]] at hlk ⊢
    rw [sGet_onetime now2 _ k _ hlk (serStr_ne_empty v) hnx rfl]
    rw [parseJson_serStr v hwf]
  · have ho2 : ot = false := by simpa using ho
    rw [show (⟨k, serStr v, e, ot⟩ : Row) = ⟨k, serStr v, e, false⟩ from by rw [ho2]] at hlk ⊢
    rw [sGet_plain now2 _ k _ hlk (serStr_ne_empty v) hnx rfl]
    rw [parseJson_serStr v hwf]

/-- C1 witness: existing value an object, incoming a number — full replace. -/
theorem c1_full_replace_witness :
    (∃ r2, lookupRow (sSetWithExpiry 0 [⟨"k", serStr (.obj [("a", .num 1)]), none, false⟩]
        "k" (.num 7) none false) "k" = some r2 ∧ r2.value = serStr (.num 7)) ∧
    (sGet 1 (sSetWithExpiry 0 [⟨"k", serStr (.obj [("a", .num 1)]), none, false⟩]
        "k" (.num 7) none false) "k").1 = some (.num 7) :=
  c1_full_replace 0 1 [⟨"k", serStr (.obj [("a", .num 1)]), none, false⟩] "k"
    ⟨"k", serStr (.obj [("a", .num 1)]), none, false⟩ (.obj [("a", .num 1)]) (.num 7)
    none false rfl (by decide) rfl (by rfl) rfl (by simp [typeofObject]) rfl rfl

/-! ## Claim C2 — setex with the one-time flag -/

/-- C2: `SQLiteKV.setex(key, 60, value, oneTime := true)` stores the expiry
but NOT the one-time flag: `SQLiteDatabase.setex` has no `oneTime` parameter
and hard-codes `false`, so the fourth argument is dropped.  The stored row has
`one_time = 0`, the first `get` (before expiry) returns the value, and a
second `get` still returns the value instead of absent. -/
theorem c2_setex_drops_onetime :
    lookupRow (kvSetex 0 [] "k" 60 (.str "v") true) "k"
      = some ⟨"k", "\"v\"", some 60000, false⟩ ∧
    sGet 0 (kvSetex 0 [] "k" 60 (.str "v") true) "k"
      = (some (.str "v"), kvSetex 0 [] "k" 60 (.str "v") true) ∧
    (sGet 0 ((sGet 0 (kvSetex 0 [] "k" 60 (.str "v") true) "k").2) "k").1
      = some (.str "v") :=
  ⟨rfl, rfl, rfl⟩

/-! ## Claim C3 — mget alignment -/

/-- C3 counterexample: with `k1` absent and `k2` present (stored `5`),
`mget(k1, k2)` returns a single-element sequence — the absent key's position
is filtered out and the later value shifts, so the result does not have one
position per input key. -/
theorem c3_counterexample :
    (kvMget 0 [⟨"k2", "5", none, false⟩] ["k1", "k2"]).1 = [.num 5] ∧
    ¬((kvMget 0 [⟨"k2", "5", none, false⟩] ["k1", "k2"]).1.length = 2) := by
  constructor
  · rfl
  · rw [show (kvMget 0 [⟨"k2", "5", none, false⟩] ["k1", "k2"]).1 = [.num 5] from rfl]
    decide

/-- C3 (amended): `mget` returns the values of the present keys in input key
order with absent keys filtered out entirely (no `null` placeholder), so the
result length is the number of present keys, not the number of inputs. -/
theorem c3_mget_filters (now : Int) (st : Store) (k1 k2 : String) (r1 : Row)
    (v1 : Value)
    (hl1 : lookupRow st k1 = some r1) (hv1 : r1.value ≠ "")
    (hexp : r1.expiry = none) (hot : r1.one_time = false)
    (hdec : parseJson r1.value = some v1)
    (hl2 : lookupRow st k2 = none) :
    kvMget now st [k1, k2] = ([v1], st) ∧ kvMget now st [k2, k1] = ([v1], st) := by
  have hg1 : sGet now st k1 = (some v1, st) := by
    rw [sGet_plain now st k1 r1 hl1 hv1 (by rw [hexp]; rfl) hot, hdec]
  have hg2 : sGet now st k2 = (none, st) := sGet_absent now st k2 hl2
  constructor
  · show (let p := mgetRaw now st [k1, k2]; (List.filterMap id p.1, p.2)) = ([v1], st)
    show (let p := (let q := sGet now st k1;
        let w := mgetRaw now q.2 [k2]; (q.1 :: w.1, w.2));
        (List.filterMap id p.1, p.2)) = ([v1], st)
    rw [hg1]
    show (let p := (some v1 :: (sGet now st k2).1 :: [], (sGet now st k2).2);
        (List.filterMap id p.1, p.2)) = ([v1], st)
    rw [hg2]
    rfl
  · show (let p := (let q := sGet now st k2;
        let w := mgetRaw now q.2 [k1]; (q.1 :: w.1, w.2));
        (List.filterMap id p.1, p.2)) = ([v1], st)
    rw [hg2]
    show (let p := (none :: (sGet now st k1).1 :: [], (sGet now st k1).2);
        (List.filterMap id p.1, p.2)) = ([v1], st)
    rw [hg1]
    rfl

/-- C3 witness: a concrete store where `k1` holds `5` and `k2` is absent. -/
theorem c3_mget_filters_witness :
    kvMget 0 [⟨"k1", "5", none, false⟩] ["k1", "k2"] = ([.num 5], [⟨"k1", "5", none, false⟩]) ∧
    kvMget 0 [⟨"k1", "5", none, false⟩] ["k2", "k1"] = ([.num 5], [⟨"k1", "5", none, false⟩]) :=
  c3_mget_filters 0 [⟨"k1", "5", none, false⟩] "k1" "k2" ⟨"k1", "5", none, false⟩
    (.num 5) rfl (by decide) rfl rfl rfl rfl

/-! ## Claim C4 — lazy expiry on read -/

/-- C4 counterexample: a stored entry with expiry `0` — present and strictly
below `now = 5` — is not deleted and its value is returned: the JS truthiness
test `result.expiry && ...` skips the expiry branch for `0`. -/
theorem c4_counterexample :
    (0 : Int) < 5 ∧
    sGet 5 [⟨"k", "\"x\"", some 0, false⟩] "k"
      = (some (.str "x"), [⟨"k", "\"x\"", some 0, false⟩]) := by
  constructor
  · decide
  · rfl

/-- C4 (amended): for every stored entry (a row the engine itself wrote, so
its blob is nonempty) whose expiry is present, NONZERO and strictly below the
current time, `get` deletes the entry and returns absent; the expiry branch
runs before the one-time branch, so this holds for any `one_time` flag and an
expired one-time entry is deleted without its value being returned. -/
theorem c4_expired_get (now : Int) (st : Store) (k : String) (r : Row) (e : Int)
    (hl : lookupRow st k = some r) (he : r.expiry = some e) (h0 : e ≠ 0)
    (hlt : e < now) (hv : r.value ≠ "") :
    sGet now st k = (none, deleteRows st k) ∧
    lookupRow (sGet now st k).2 k = none := by
  have hx : expiredB r.expiry now = true := by
    rw [he]
    simp [expiredB, h0, hlt]
  have hg := sGet_expired now st k r hl hv hx
  exact ⟨hg, by rw [hg]; exact lookupRow_deleteRows st k⟩

/-- C4 witness: an expired one-time entry is deleted, value not returned. -/
theorem c4_expired_get_witness :
    sGet 5 [⟨"k", "\"x\"", some 3, true⟩] "k"
      = (none, deleteRows [⟨"k", "\"x\"", some 3, true⟩] "k") ∧
    lookupRow (sGet 5 [⟨"k", "\"x\"", some 3, true⟩] "k").2 "k" = none :=
  c4_expired_get 5 [⟨"k", "\"x\"", some 3, true⟩] "k" ⟨"k", "\"x\"", some 3, true⟩
    3 rfl rfl (by decide) (by decide) (by decide)

/-! ## Claim C5 — one-time read-once semantics -/

/-- C5: after `set(k, v, oneTime := true)` on an absent key with no expiry,
the first `get` returns `v` (the read that triggers deletion still returns the
value) and leaves a store in which `k` is absent — on which every subsequent
`get`, at any time, returns absent and changes nothing. -/
theorem c5_one_time (now now2 : Int) (st : Store) (k : String) (v : Value)
    (hl : lookupRow st k = none) (hwf : wfV v = true) :
    sGet now2 (sSet now st k v true) k = (some v, st) ∧
    lookupRow st k = none ∧
    (∀ now3, sGet now3 st k = (none, st)) := by
  have hset : sSet now st k v true = st ++ [⟨k, serStr v, none, true⟩] :=
    sSetWithExpiry_absent now st k v none true hl
  have hlk : lookupRow (st ++ [⟨k, serStr v, none, true⟩]) k
      = some ⟨k, serStr v, none, true⟩ :=
    lookupRow_append_one st k _ hl rfl
  refine ⟨?_, hl, fun now3 => sGet_absent now3 st k hl⟩
  rw [hset, sGet_onetime now2 _ k _ hlk (serStr_ne_empty v) rfl rfl,
      parseJson_serStr v hwf, deleteRows_append, deleteRows_of_absent st k hl,
      deleteRows_single_hit _ _ rfl]
  simp

/-- C5 witness: a one-time boolean value on an empty store. -/
theorem c5_one_time_witness :
    sGet 9 (sSet 0 [] "k" (.bool true) true) "k" = (some (.bool true), []) ∧
    lookupRow ([] : Store) "k" = none ∧
    (∀ now3, sGet now3 ([] : Store) "k" = (none, [])) :=
  c5_one_time 0 9 [] "k" (.bool true) rfl rfl

/-! ## Claim C6 — operations on an unopened handle -/

/-- C6 counterexample: `get` on a null handle does NOT surface an error — it
returns the ambiguous absent value `null` (`database.ts` line 178-180),
falsifying the claim that get, set and delete all fail with an error. -/
theorem c6_counterexample : dbGet none 0 "k" = (none, none) := rfl

/-- C6 (amended): on an unopened handle, `set` and `delete` fail with the
`Database not initialized` error, but `get` returns `null` (absent) without
any error. -/
theorem c6_uninitialized (now : Int) (k : String) (v : Value) (ot : Bool) :
    dbSet none now k v ot = .error "Database not initialized" ∧
    dbDelete none k = .error "Database not initialized" ∧
    dbGet none now k = (none, none) :=
  ⟨rfl, rfl, rfl⟩

/-! ## Claim C7 — keys(pattern) glob matching -/

/-- C7: the claim is the code's own intent (the spec documents `%`/`_` as
wildcards), but `keys` escapes both wildcards (`pattern.replace(/%/g, "\\%")
.replace(/_/g, "\\_")`) and runs `LIKE` with no `ESCAPE` clause, so the
backslash is a literal character: `keys("a%")` on a store holding key `"abc"`
returns the empty list even though `"abc"` LIKE-matches `a%` directly. -/
theorem c7_keys_escaped :
    sKeys [⟨"abc", "\"x\"", none, false⟩] (some "a%") = [] ∧
    likeMatch "a%" "abc" = true ∧
    likeMatch (String.mk (escapeLikeChars "a%".data)) "a\\bc" = true := by
  refine ⟨rfl, rfl, rfl⟩

/-! ## Claim C8 — encode/decode round-trip through set/get -/

/-- C8: for every supported value (any tag: string, integer number, boolean,
object, array — objects well-formed, i.e. without duplicate keys) and every
previously absent key, `get` immediately after `set` returns exactly the
written value: the merge path leaves a first write unchanged and
`JSON.parse ∘ JSON.stringify` is the identity on the value. -/
theorem c8_roundtrip (now now2 : Int) (st : Store) (k : String) (v : Value)
    (hl : lookupRow st k = none) (hwf : wfV v = true) :
    (sGet now2 (sSet now st k v false) k).1 = some v := by
  have hset : sSet now st k v false = st ++ [⟨k, serStr v, none, false⟩] :=
    sSetWithExpiry_absent now st k v none false hl
  have hlk : lookupRow (st ++ [⟨k, serStr v, none, false⟩]) k
      = some ⟨k, serStr v, none, false⟩ :=
    lookupRow_append_one st k _ hl rfl
  rw [hset, sGet_plain now2 _ k _ hlk (serStr_ne_empty v) rfl rfl,
      parseJson_serStr v hwf]

/-- C8 witness: one value per tag — string, number, boolean, object, array —
round-trips through a set/get pair on an empty store. -/
theorem c8_roundtrip_witness :
    (sGet 1 (sSet 0 [] "k" (.str "hi") false) "k").1 = some (.str "hi") ∧
    (sGet 1 (sSet 0 [] "k" (.num (-42)) false) "k").1 = some (.num (-42)) ∧
    (sGet 1 (sSet 0 [] "k" (.bool false) false) "k").1 = some (.bool false) ∧
    (sGet 1 (sSet 0 [] "k" (.obj [("a", .num 1), ("b", .arr [.str "x"])]) false) "k").1
      = some (.obj [("a", .num 1), ("b", .arr [.str "x"])]) ∧
    (sGet 1 (sSet 0 [] "k" (.arr [.num 1, .bool true]) false) "k").1
      = some (.arr [.num 1, .bool true]) :=
  ⟨c8_roundtrip 0 1 [] "k" (.str "hi") rfl rfl,
   c8_roundtrip 0 1 [] "k" (.num (-42)) rfl rfl,
   c8_roundtrip 0 1 [] "k" (.bool false) rfl rfl,
   c8_roundtrip 0 1 [] "k" (.obj [("a", .num 1), ("b", .arr [.str "x"])]) rfl (by decide),
   c8_roundtrip 0 1 [] "k" (.arr [.num 1, .bool true]) rfl rfl⟩

/-! ## Claim C9 — writes replace metadata unconditionally -/

/-- C9: every write through `setWithExpiry` (hence `set` and `setex`) stores
this call's own expiry and one-time arguments in the row, whatever the
previous row carried — in particular a plain `set` leaves `expiry = null` and
`one_time = 0`, and `setex` leaves `expiry = now + seconds*1000` and
`one_time = 0`. -/
theorem c9_metadata_replaced (now : Int) (st : Store) (k : String) (v : Value)
    (e : Option Int) (ot : Bool) :
    (∃ r, lookupRow (sSetWithExpiry now st k v e ot) k = some r ∧
        r.expiry = e ∧ r.one_time = ot) ∧
    (∃ r, lookupRow (sSet now st k v ot) k = some r ∧
        r.expiry = none ∧ r.one_time = ot) ∧
    (∀ seconds : Int, ∃ r, lookupRow (sSetex now st k seconds v) k = some r ∧
        r.expiry = some (now + seconds * 1000) ∧ r.one_time = false) := by
  refine ⟨?_, ?_, fun seconds => ?_⟩
  · exact ⟨_, lookupRow_insertOrReplace (sGet now st k).2
      ⟨k, serStr (mergeValue (sGet now st k).1 v), e, ot⟩, rfl, rfl⟩
  · exact ⟨_, lookupRow_insertOrReplace (sGet now st k).2
      ⟨k, serStr (mergeValue (sGet now st k).1 v), none, ot⟩, rfl, rfl⟩
  · exact ⟨_, lookupRow_insertOrReplace (sGet now st k).2
      ⟨k, serStr (mergeValue (sGet now st k).1 v), some (now + seconds * 1000),
        false⟩, rfl, rfl⟩

/-! ## Claim C10 — expiry timestamp 0 means no expiry -/

/-- C10: a stored entry whose expiry column is exactly `0` behaves as if it
had no expiry: `get` returns its decoded value at every time (never
expiry-deletes it — the store is unchanged whenever the entry is not
one-time), and `ttl` returns `null` rather than `0` remaining milliseconds. -/
theorem c10_zero_expiry (now : Int) (st : Store) (k : String) (r : Row)
    (hl : lookupRow st k = some r) (he : r.expiry = some 0) (hv : r.value ≠ "") :
    (sGet now st k).1 = parseJson r.value ∧
    (r.one_time = false → sGet now st k = (parseJson r.value, st)) ∧
    sTtl now st k = none := by
  have hx : expiredB r.expiry now = false := by
    rw [he]
    simp [expiredB]
  refine ⟨?_, fun ho => sGet_plain now st k r hl hv hx ho, ?_⟩
  · by_cases ho : r.one_time
    · rw [sGet_onetime now st k r hl hv hx ho]
    · rw [sGet_plain now st k r hl hv hx (by simpa using ho)]
  · rw [sTtl, hl]
    show (match r.expiry with
          | none => none
          | some e => if e = 0 then none else some ((e - now) ⊔ 0)) = none
    rw [he]
    simp

/-- C10 witness: a zero-expiry entry keeps returning its value and has no
ttl, at a time far past zero. -/
theorem c10_zero_expiry_witness :
    (sGet 999999 [⟨"k", "\"x\"", some 0, false⟩] "k").1
      = parseJson "\"x\"" ∧
    ((false : Bool) = false →
      sGet 999999 [⟨"k", "\"x\"", some 0, false⟩] "k"
        = (parseJson "\"x\"", [⟨"k", "\"x\"", some 0, false⟩])) ∧
    sTtl 999999 [⟨"k", "\"x\"", some 0, false⟩] "k" = none :=
  c10_zero_expiry 999999 [⟨"k", "\"x\"", some 0, false⟩] "k"
    ⟨"k", "\"x\"", some 0, false⟩ rfl rfl (by decide)
